import Mathlib

/-!
# Verification of the Facet transaction-derivation worker

A shallow embedding, in Lean 4, of the Facet worker that derives a canonical
L2 ("Facet") transaction from an L1 transaction.  The embedding covers:

* byte-level helpers (big-endian number encoding, as produced by `toHex` and
  consumed by `BigInt` in the original TypeScript);
* an RLP encoder and a canonicity-enforcing RLP decoder (the worker uses
  `viem`'s `toRlp` / `fromRlp`);
* the two derivation paths of the worker's `fetch` handler: the Direct
  (inbox-call) path and the ContractEvent (log-payload) path, including the
  classifier, address aliasing, the mint-amount accounting, and the mapping
  of outcomes to HTTP status codes;
* the request-parameter validation (`txHash` / `chainId`);
* the mint-rate target-block computation;
* the second variant of the pipeline (the earlier worker revision), embedded
  separately in the `V0` namespace to compare the two event-path extractions.

Bytes are modelled as `Nat`s (with `< 256` hypotheses where the value range
matters), byte strings as `List Nat`, JS `bigint`s as `Nat`, JS string values
(addresses compared case-insensitively) as lists of ASCII codes.
-/

set_option maxRecDepth 8192

/-! ## Byte-string helpers -/


/-- Big-endian interpretation of a byte string as a natural number.  Models
`BigInt("0x…")` applied to the hex rendering of the bytes. -/
def beNat (l : List Nat) : Nat :=
  l.foldl (fun acc b => acc * 256 + b) 0

/-- Fuelled worker for `natToBE`; the fuel only bounds the recursion depth. -/
def natToBEAux : Nat → Nat → List Nat
  | 0, _ => []
  | fuel + 1, n => if n = 0 then [] else natToBEAux fuel (n / 256) ++ [n % 256]

/-- Minimal big-endian byte representation of a natural number (`0 ↦ []`).
Models `toHex` applied to a `bigint` (minimal hex digits, zero-padded to
whole bytes by `viem` when RLP-encoding). -/
def natToBE (n : Nat) : List Nat :=
  natToBEAux n n

/-! ## RLP encoding and decoding (model of viem's `toRlp` / `fromRlp`) -/
/-- An RLP value: a byte string or a list of RLP values. -/
inductive RlpValue where
  | bytes : List Nat → RlpValue
  | list : List RlpValue → RlpValue

/-- RLP encoding of a single byte string. -/
def rlpEncodeBytes (b : List Nat) : List Nat :=
  if b.length = 1 ∧ b.headI < 128 then b
  else if b.length ≤ 55 then (128 + b.length) :: b
  else (183 + (natToBE b.length).length) :: (natToBE b.length ++ b)

mutual

/-- RLP encoding of an arbitrary RLP value. -/
def rlpEncode : RlpValue → List Nat
  | .bytes b => rlpEncodeBytes b
  | .list items =>
    let p := rlpEncodeItems items
    if p.length ≤ 55 then (192 + p.length) :: p
    else (247 + (natToBE p.length).length) :: (natToBE p.length ++ p)

/-- Concatenated RLP encodings of a sequence of RLP values. -/
def rlpEncodeItems : List RlpValue → List Nat
  | [] => []
  | v :: vs => rlpEncode v ++ rlpEncodeItems vs

end

/-- RLP encoding of a flat list of byte strings (the only shape the worker
ever serializes with `toRlp`).  Agrees with `rlpEncode` on such lists
(`rlpEncodeBytesList_eq`) but is defined by plain structural recursion. -/
def rlpEncodeBytesList (items : List (List Nat)) : List Nat :=
  let p := (items.map rlpEncodeBytes).flatten
  if p.length ≤ 55 then (192 + p.length) :: p
  else (247 + (natToBE p.length).length) :: (natToBE p.length ++ p)

/-- Read a long-form length field: `nn` length bytes at the front of `t`,
big-endian, canonical (no leading zero, value above 55).  Returns the length
and the remaining bytes. -/
def readLongLen (nn : Nat) (t : List Nat) : Option (Nat × List Nat) :=
  if nn ≤ t.length then
    let lenB := t.take nn
    if lenB.headI = 0 then none
    else
      let len := beNat lenB
      if len ≤ 55 then none else some (len, t.drop nn)
  else none

instance : Inhabited RlpValue := ⟨RlpValue.bytes []⟩

/-- Decode a byte string as a concatenation of RLP items, consuming it
entirely.  The decoder enforces canonical (minimal-length) encodings, as the
round-trip property of the envelope format requires.  `fuel` only bounds the
recursion depth; `fromRlp` supplies enough of it. -/
def rlpDecodeItems : Nat → List Nat → Option (List RlpValue)
  | 0, _ => none
  | _ + 1, [] => some []
  | fuel + 1, b :: t =>
    if b < 128 then
      (rlpDecodeItems fuel t).map (fun items => RlpValue.bytes [b] :: items)
    else if b ≤ 183 then
      let n := b - 128
      if n ≤ t.length ∧ ¬(n = 1 ∧ (t.take n).headI < 128) then
        (rlpDecodeItems fuel (t.drop n)).map
          (fun items => RlpValue.bytes (t.take n) :: items)
      else none
    else if b ≤ 191 then
      (readLongLen (b - 183) t).bind (fun lu =>
        if lu.1 ≤ lu.2.length then
          (rlpDecodeItems fuel (lu.2.drop lu.1)).map
            (fun items => RlpValue.bytes (lu.2.take lu.1) :: items)
        else none)
    else if b ≤ 247 then
      let n := b - 192
      if n ≤ t.length then
        (rlpDecodeItems fuel (t.take n)).bind (fun inner =>
          (rlpDecodeItems fuel (t.drop n)).map
            (fun items => RlpValue.list inner :: items))
      else none
    else
      (readLongLen (b - 247) t).bind (fun lu =>
        if lu.1 ≤ lu.2.length then
          (rlpDecodeItems fuel (lu.2.take lu.1)).bind (fun inner =>
            (rlpDecodeItems fuel (lu.2.drop lu.1)).map
              (fun items => RlpValue.list inner :: items))
        else none)

/-- Model of viem's `fromRlp`: decode a byte string as exactly one RLP item
consuming the whole input; anything else is a decode failure (viem throws). -/
def fromRlp (bs : List Nat) : Option RlpValue :=
  (rlpDecodeItems (bs.length + 1) bs).bind
    (fun items => if items.length = 1 then some items.headI else none)

/-! ## Small RLP value helpers used by the worker model -/
/-- The byte strings of a decoded RLP value list (`undefined` for a nested
list, which the worker would cast unsoundly; see `getBytesElem`). -/
def RlpValue.asList : RlpValue → Option (List RlpValue)
  | .list l => some l
  | .bytes _ => none

def RlpValue.isBytes : RlpValue → Bool
  | .bytes _ => true
  | .list _ => false

def asBytes : Option RlpValue → Option (List Nat)
  | some (RlpValue.bytes b) => some b
  | _ => none

/-- The TypeScript `decoded[i] as Hex`: the i-th decoded element, defined only
when it is a byte string (a nested list would be cast unsoundly by the
worker; the model treats that as an unmodelled error). -/
def getBytesElem (items : List RlpValue) (i : Nat) : Option (List Nat) :=
  asBytes items[i]?

/-! ## Worker constants and request model (src/index.ts) -/
/-- ASCII codes of a JS string. -/
def strBytes (s : String) : List Nat :=
  s.data.map Char.toNat

/-- ASCII lowercasing of one character code (JS `toLowerCase` restricted to
the ASCII range, which covers hex addresses). -/
def lowerChar (c : Nat) : Nat :=
  if 65 ≤ c ∧ c ≤ 90 then c + 32 else c

/-- JS `String.prototype.toLowerCase` on an ASCII string. -/
def lowerStr (s : List Nat) : List Nat :=
  s.map lowerChar

/-- The fixed inbox address, as the literal JS string of the source. -/
def FACET_INBOX_ADDRESS : List Nat :=
  strBytes "0x00000000000000000000000000000000000FacE7"

/-- The 32-byte event-topic sentinel, modelled by its numeric value
(`viem` log topics are fixed-width lowercase hex, so string equality of
topics coincides with value equality). -/
def FACET_EVENT_SIGNATURE : Nat := 0xface7

/-- The fixed 12-second L2 block period. -/
def L2_BLOCK_TIME : Int := 12

/-- An L1 source transaction: recipient (absent for contract creation,
otherwise the address as a JS string), sender, and raw input bytes. -/
structure SourceTx where
  toAddr : Option (List Nat)
  sender : Nat
  input : List Nat
deriving DecidableEq

/-- A receipt log: emitting address (numeric), topics (numeric values of the
32-byte topic words), and data bytes (tag byte included). -/
structure Log where
  address : Nat
  topics : List Nat
  data : List Nat
deriving DecidableEq

structure Receipt where
  logs : List Log
deriving DecidableEq

/-- The derived canonical transaction fields the worker passes to hash
derivation. -/
structure DerivedTx where
  fromAddress : Nat
  «to» : Option (List Nat)
  value : Nat
  gasLimit : Nat
  data : List Nat
  fctMintAmount : Nat
deriving DecidableEq

/-- Outcome of the derivation part of the `fetch` handler:
`ok` reaches hash derivation, `badRequest` is an explicit
`return new Response(..., { status: 400 })`, `thrown` is a JS exception
caught by the handler's outer `catch` (surfaced as status 500). -/
inductive DeriveResult where
  | ok (tx : DerivedTx)
  | badRequest (msg : String)
  | thrown (msg : String)
deriving DecidableEq

/-- HTTP status of a `DeriveResult` under the source's response mapping:
explicit 400 returns, the outer `catch` turning thrown errors into 500,
and 200 for the success JSON. -/
def responseStatusOf : DeriveResult → Nat
  | .ok _ => 200
  | .badRequest _ => 400
  | .thrown _ => 500

/-- Error message carried by a failing `DeriveResult` (the JSON error body
is `{"error": <msg>}`). -/
def responseErrorOf : DeriveResult → Option String
  | .ok _ => none
  | .badRequest msg => some msg
  | .thrown msg => some msg

/-! ## External SDK primitives (not part of this repository) -/
/-- Modelled from the spec: `applyL1ToL2Alias` of `@0xfacet/sdk` is missing
from the source tree; §4.4 defines it as adding a fixed 160-bit offset
modulo `2^160` (the published L1→L2 aliasing offset). -/
def applyL1ToL2Alias (address : Nat) : Nat :=
  (address + 0x1111000000000000000000000000000000001111) % 2 ^ 160

/-- Modelled from the spec: `calculateInputGasCost` of `@0xfacet/sdk` is
missing from the source tree; §4.2 describes it as charging per zero /
non-zero byte, analogous to intrinsic calldata costing (4 gas per zero
byte, 16 per non-zero byte). -/
def calculateInputGasCost (bytes : List Nat) : Nat :=
  bytes.foldl (fun acc b => acc + if b = 0 then 4 else 16) 0

/-! ## Direct envelope decoding (spec-modelled) and re-encoding (source) -/
/-- Fields produced by `decodeFacetEncodedTransaction`. -/
structure DecodedFacetTx where
  «to» : Option (List Nat)
  value : Nat
  gasLimit : Nat
  data : List Nat
  mineBoost : Nat
deriving DecidableEq

/-- A canonical minimal big-endian number encoding: no leading zero byte. -/
def canonNum (b : List Nat) : Prop :=
  b = [] ∨ b.headI ≠ 0

instance (b : List Nat) : Decidable (canonNum b) := by
  unfold canonNum
  infer_instance

/-- Modelled from the spec: `decodeFacetEncodedTransaction`
(`src/decodeFacetEncodedTransaction.ts`) is not in the source tree; §4.2
treats it as a black box whose valid inputs are exactly the canonical
encoded payloads — the fixed tag byte 70 followed by the RLP list
`[l2ChainId, to-or-empty, value-or-empty, gasLimit-or-empty, data,
mineBoost-or-empty]` (`to` empty or 20 bytes, numbers minimally encoded). -/
def decodeFacetEncodedTransaction (l2ChainId : Nat) (input : List Nat) :
    Option DecodedFacetTx :=
  if input ≠ [] ∧ input.headI = 70 then
    (fromRlp input.tail).bind (fun v =>
      v.asList.bind (fun es =>
        (if es.length = 6 ∧ es.all RlpValue.isBytes ∧
            (getBytesElem es 0).getD [] = natToBE l2ChainId ∧
            ((getBytesElem es 1).getD [] = [] ∨ ((getBytesElem es 1).getD []).length = 20) ∧
            canonNum ((getBytesElem es 2).getD []) ∧
            canonNum ((getBytesElem es 3).getD []) ∧
            canonNum ((getBytesElem es 5).getD []) then
          some
            { «to» := if (getBytesElem es 1).getD [] = [] then none
                    else some ((getBytesElem es 1).getD [])
              value := beNat ((getBytesElem es 2).getD [])
              gasLimit := beNat ((getBytesElem es 3).getD [])
              data := (getBytesElem es 4).getD []
              mineBoost := beNat ((getBytesElem es 5).getD []) }
        else none)))
  else none

/-- The `transactionData` array the worker re-serializes on the Direct path
(src/index.ts lines 94–101): `toHex` of the L2 chain id, `to ?? "0x"`,
`value ? toHex(value) : "0x"`, `gasLimit ? toHex(gasLimit) : "0x"`,
`data ?? "0x"`, `mineBoost ? toHex(mineBoost) : "0x"`. -/
def directTransactionData (l2ChainId : Nat) (d : DecodedFacetTx) : List (List Nat) :=
  [natToBE l2ChainId, d.to.getD [], natToBE d.value, natToBE d.gasLimit,
    d.data, natToBE d.mineBoost]

/-- `concatHex([toHex(70), toRlp(transactionData)])` (src/index.ts line 103). -/
def directEncodedTransaction (l2ChainId : Nat) (d : DecodedFacetTx) : List Nat :=
  70 :: rlpEncodeBytesList (directTransactionData l2ChainId d)

/-! ## The two derivation paths of the `fetch` handler (src/index.ts) -/
/-- The classifier (src/index.ts line 83):
`transaction.to?.toLowerCase() === FACET_INBOX_ADDRESS.toLowerCase()`.
Optional chaining makes the comparison `undefined === string`, i.e. false,
when the recipient is absent. -/
def isDirect (tx : SourceTx) : Bool :=
  (tx.toAddr.map lowerStr) == some (lowerStr FACET_INBOX_ADDRESS)

/-- The event scan (src/index.ts lines 114–116): first log with exactly one
topic equal to the sentinel. -/
def findFacetEvent (logs : List Log) : Option Log :=
  logs.find? (fun log => log.topics.length == 1 && log.topics.headI == FACET_EVENT_SIGNATURE)

/-- The Direct (EOA inbox-call) branch (src/index.ts lines 84–105).  A
decode failure is a thrown error (caught as 500). -/
def directDerive (l2ChainId : Nat) (tx : SourceTx) (fctMintRate : Nat) : DeriveResult :=
  (decodeFacetEncodedTransaction l2ChainId tx.input).elim
    (.thrown "failed to decode Facet transaction input")
    (fun decoded =>
      .ok
        { fromAddress := tx.sender
          «to» := decoded.to
          value := decoded.value
          gasLimit := decoded.gasLimit
          data := decoded.data
          fctMintAmount :=
            calculateInputGasCost (directEncodedTransaction l2ChainId decoded) * fctMintRate })

/-- The ContractEvent branch (src/index.ts lines 107–161).  `payload.tail`
is `payload.slice(4)` on the hex string (the 1-byte tag stripped); the
`to` emptiness test `toAddressBytes.length <= 2` is on the *hex string*,
whose length is `2 + 2 * byteLength`; `value`/`gasLimit` use
`hex && hex !== "0x" ? BigInt(hex) : 0n`; the mint amount is
`byteLength(full log data) * 8 * mintRate`. -/
def eventDerive (receipt : Receipt) (fctMintRate : Nat) : DeriveResult :=
  (findFacetEvent receipt.logs).elim (.badRequest "No Facet event found in transaction")
    (fun facetEvent =>
      (fromRlp facetEvent.data.tail).elim (.thrown "rlp decoding failed")
        (fun v =>
          v.asList.elim (.thrown "Invalid RLP data in Facet event")
            (fun decoded =>
              if decoded.length < 6 then .thrown "Invalid RLP data in Facet event"
              else
                ((getBytesElem decoded 1).bind (fun toB =>
                  (getBytesElem decoded 2).bind (fun valueB =>
                    (getBytesElem decoded 3).bind (fun gasB =>
                      (getBytesElem decoded 4).map (fun dataB =>
                        ({ fromAddress := applyL1ToL2Alias facetEvent.address
                           «to» := if 2 + 2 * toB.length ≤ 2 then none else some toB
                           value := if valueB = [] then 0 else beNat valueB
                           gasLimit := if gasB = [] then 0 else beNat gasB
                           data := dataB
                           fctMintAmount := facetEvent.data.length * 8 * fctMintRate }
                          : DerivedTx)))))).elim
                  (.thrown "unmodelled dynamic cast of non-byte RLP element")
                  DeriveResult.ok)))

/-- The derivation core of the `fetch` handler: classifier plus the two
branches (src/index.ts lines 83–162). -/
def derive (l2ChainId : Nat) (tx : SourceTx) (receipt : Receipt) (fctMintRate : Nat) :
    DeriveResult :=
  if isDirect tx then directDerive l2ChainId tx fctMintRate
  else eventDerive receipt fctMintRate

/-! ## Request validation and target-block computation (src/index.ts) -/
/-- An HTTP response: status and JSON body. -/
structure HttpResponse where
  status : Nat
  body : String
deriving DecidableEq

/-- `JSON.stringify({ error: msg })`. -/
def jsonError (msg : String) : String :=
  "\x7b\"error\":\"" ++ msg ++ "\"\x7d"

/-- The parameter validation of the handler (src/index.ts lines 17–26).
`txHash` is the raw query parameter (absent or a string; the empty string is
falsy).  `chainId` is the result of `Number(param)`: `none` models `NaN`
(non-numeric input); a missing parameter gives `Number(null) = 0`, which is
falsy just like `NaN`.  Returns `none` when validation passes, otherwise
the early 400 response. -/
def validateRequest (txHash : Option String) (chainId : Option Int) : Option HttpResponse :=
  if txHash = none ∨ txHash = some "" ∨ chainId = none ∨ chainId = some 0 then
    some ⟨400, jsonError "Missing txHash or chainId"⟩
  else if chainId ≠ some 1 ∧ chainId ≠ some 11155111 then
    some ⟨400, jsonError "Invalid chainId"⟩
  else none

/-- The mint-rate lookup block (src/index.ts lines 57–67):
`timeDiffSeconds = latestL2Timestamp - txBlockTimestamp`,
`l2BlocksToGoBack = Math.floor(timeDiffSeconds / L2_BLOCK_TIME)`,
`targetL2BlockNumber = latestL2BlockNumber - BigInt(l2BlocksToGoBack)`.
`Math.floor` of the real quotient of integers is flooring division. -/
def targetL2BlockNumber (latestL2BlockNumber latestL2Timestamp txBlockTimestamp : Int) : Int :=
  latestL2BlockNumber - Int.fdiv (latestL2Timestamp - txBlockTimestamp) L2_BLOCK_TIME

/-! ## The earlier pipeline variant (src/unnamed/part_000) -/
namespace V0

/-- The derived fields of the earlier variant (no mint amount: its hash call
takes only six arguments). -/
structure EventFields where
  fromAddress : Nat
  «to» : Option (List Nat)
  value : Nat
  gasLimit : Nat
  data : List Nat
deriving DecidableEq

inductive Result where
  | ok (f : EventFields)
  | badRequest (msg : String)
  | thrown (msg : String)
deriving DecidableEq

/-- The event scan of the earlier variant (part_000 line 66). -/
def findFacetEvent (logs : List Log) : Option Log :=
  logs.find? (fun log => log.topics.length == 1 && log.topics.headI == FACET_EVENT_SIGNATURE)

/-- The ContractEvent branch of the earlier variant (part_000 lines 60–102),
translated independently from its source. -/
def eventDerive (receipt : Receipt) : Result :=
  (V0.findFacetEvent receipt.logs).elim (.badRequest "No Facet event found in transaction")
    (fun facetEvent =>
      (fromRlp facetEvent.data.tail).elim (.thrown "rlp decoding failed")
        (fun v =>
          v.asList.elim (.thrown "Invalid RLP data in Facet event")
            (fun decoded =>
              if decoded.length < 6 then .thrown "Invalid RLP data in Facet event"
              else
                ((getBytesElem decoded 1).bind (fun toB =>
                  (getBytesElem decoded 2).bind (fun valueB =>
                    (getBytesElem decoded 3).bind (fun gasB =>
                      (getBytesElem decoded 4).map (fun dataB =>
                        ({ fromAddress := applyL1ToL2Alias facetEvent.address
                           «to» := if 2 + 2 * toB.length ≤ 2 then none else some toB
                           value := if valueB = [] then 0 else beNat valueB
                           gasLimit := if gasB = [] then 0 else beNat gasB
                           data := dataB } : EventFields)))))).elim
                  (.thrown "unmodelled dynamic cast of non-byte RLP element")
                  Result.ok)))

end V0

/-- Forget the mint amount of a `DeriveResult`, for comparison with the
earlier variant (which computes none). -/
def forgetMint : DeriveResult → V0.Result
  | .ok f => .ok ⟨f.fromAddress, f.to, f.value, f.gasLimit, f.data⟩
  | .badRequest msg => .badRequest msg
  | .thrown msg => .thrown msg

/-! ## Theorems -/

theorem natToBEAux_irrel : ∀ n fuel fuel', n ≤ fuel → n ≤ fuel' →
    natToBEAux fuel n = natToBEAux fuel' n := by
  intro n
  induction n using Nat.strong_induction_on with
  | _ n ih =>
    intro fuel fuel' h h'
    match n, fuel, fuel' with
    | 0, 0, 0 => rfl
    | 0, 0, f' + 1 => simp [natToBEAux]
    | 0, f + 1, 0 => simp [natToBEAux]
    | 0, f + 1, f' + 1 => simp [natToBEAux]
    | n + 1, f + 1, f' + 1 =>
      simp only [natToBEAux, if_neg (Nat.succ_ne_zero n)]
      have hdiv : (n + 1) / 256 < n + 1 := Nat.div_lt_self (Nat.succ_pos n) (by norm_num)
      have hrec : natToBEAux f ((n + 1) / 256) = natToBEAux f' ((n + 1) / 256) :=
        ih ((n + 1) / 256) hdiv f f' (by omega) (by omega)
      rw [hrec]

theorem natToBE_zero : natToBE 0 = [] := rfl

theorem natToBE_eq (n : Nat) (hn : n ≠ 0) :
    natToBE n = natToBE (n / 256) ++ [n % 256] := by
  have hpos : 0 < n := Nat.pos_of_ne_zero hn
  have hdiv : n / 256 < n := Nat.div_lt_self hpos (by norm_num)
  match n, hpos with
  | n + 1, _ =>
    show natToBEAux (n + 1) (n + 1) = natToBE ((n + 1) / 256) ++ [(n + 1) % 256]
    simp only [natToBEAux, if_neg (Nat.succ_ne_zero n)]
    rw [natToBEAux_irrel ((n + 1) / 256) n ((n + 1) / 256) (by omega) (le_refl _)]
    rfl

theorem natToBE_single (b : Nat) (hb : b < 256) (hb0 : b ≠ 0) : natToBE b = [b] := by
  rw [natToBE_eq b hb0, Nat.div_eq_of_lt hb, Nat.mod_eq_of_lt hb, natToBE_zero]
  rfl

theorem natToBE_append (m b : Nat) (hb : b < 256) (h : ¬(m = 0 ∧ b = 0)) :
    natToBE (m * 256 + b) = natToBE m ++ [b] := by
  have hne : m * 256 + b ≠ 0 := by
    rcases Nat.eq_zero_or_pos m with hm | hm
    · subst hm; simpa using fun hb0 => h ⟨rfl, hb0⟩
    · positivity
  rw [natToBE_eq _ hne]
  have h1 : (m * 256 + b) / 256 = m := by
    rw [Nat.add_comm, Nat.add_mul_div_right _ _ (by norm_num : (0:Nat) < 256),
      Nat.div_eq_of_lt hb, Nat.zero_add]
  have h2 : (m * 256 + b) % 256 = b := by
    rw [Nat.add_comm, Nat.add_mul_mod_self_right, Nat.mod_eq_of_lt hb]
  rw [h1, h2]

theorem natToBE_foldl (l : List Nat) :
    ∀ acc, (∀ b ∈ l, b < 256) → acc ≠ 0 →
      natToBE (l.foldl (fun a b => a * 256 + b) acc) = natToBE acc ++ l := by
  induction l with
  | nil => intro acc _ _; simp
  | cons b t ih =>
    intro acc hl hacc
    have hb : b < 256 := hl b (List.mem_cons_self _ _)
    have hstep : natToBE (acc * 256 + b) = natToBE acc ++ [b] :=
      natToBE_append acc b hb (by rintro ⟨h0, _⟩; exact hacc h0)
    have hne : acc * 256 + b ≠ 0 := by
      have : 0 < acc := Nat.pos_of_ne_zero hacc
      positivity
    simp only [List.foldl_cons]
    rw [ih (acc * 256 + b) (fun x hx => hl x (List.mem_cons_of_mem _ hx)) hne, hstep,
      List.append_assoc]
    rfl

/-- Round trip: a byte string with no leading zero byte is reproduced by
`natToBE` from its big-endian value. -/
theorem natToBE_beNat (l : List Nat) (hl : ∀ b ∈ l, b < 256)
    (hcanon : l = [] ∨ l.headI ≠ 0) : natToBE (beNat l) = l := by
  match l with
  | [] => rfl
  | h :: t =>
    have hh0 : h ≠ 0 := by
      rcases hcanon with hc | hc
      · exact absurd hc (List.cons_ne_nil _ _)
      · simpa using hc
    have hh : h < 256 := hl h (List.mem_cons_self _ _)
    show natToBE ((h :: t).foldl (fun a b => a * 256 + b) 0) = h :: t
    simp only [List.foldl_cons, Nat.zero_mul, Nat.zero_add]
    rw [natToBE_foldl t h (fun x hx => hl x (List.mem_cons_of_mem _ hx)) hh0,
      natToBE_single h hh hh0]
    rfl

theorem rlpEncodeItems_map_bytes (l : List (List Nat)) :
    rlpEncodeItems (l.map RlpValue.bytes) = (l.map rlpEncodeBytes).flatten := by
  induction l with
  | nil => rfl
  | cons b t ih => simp [rlpEncodeItems, rlpEncode, ih]

theorem rlpEncodeBytesList_eq (l : List (List Nat)) :
    rlpEncode (.list (l.map RlpValue.bytes)) = rlpEncodeBytesList l := by
  simp only [rlpEncode, rlpEncodeBytesList, rlpEncodeItems_map_bytes]

/-! ## Decoder soundness: a successful decode re-encodes to the input -/
theorem rlpEncodeBytes_single (b : Nat) (hb : b < 128) : rlpEncodeBytes [b] = [b] := by
  simp [rlpEncodeBytes, hb]

theorem rlpEncodeBytes_short (item : List Nat) (h1 : item.length ≤ 55)
    (h2 : ¬(item.length = 1 ∧ item.headI < 128)) :
    rlpEncodeBytes item = (128 + item.length) :: item := by
  rw [rlpEncodeBytes, if_neg h2, if_pos h1]

theorem rlpEncodeBytes_long (item : List Nat) (h : 55 < item.length) :
    rlpEncodeBytes item = (183 + (natToBE item.length).length) :: (natToBE item.length ++ item) := by
  rw [rlpEncodeBytes, if_neg (by omega : ¬(item.length = 1 ∧ item.headI < 128)),
    if_neg (by omega)]

theorem rlpEncode_list_short (items : List RlpValue)
    (h : (rlpEncodeItems items).length ≤ 55) :
    rlpEncode (.list items) = (192 + (rlpEncodeItems items).length) :: rlpEncodeItems items := by
  rw [rlpEncode]
  simp only [if_pos h]

theorem rlpEncode_list_long (items : List RlpValue)
    (h : ¬(rlpEncodeItems items).length ≤ 55) :
    rlpEncode (.list items) =
      (247 + (natToBE (rlpEncodeItems items).length).length) ::
        (natToBE (rlpEncodeItems items).length ++ rlpEncodeItems items) := by
  rw [rlpEncode]
  simp only [if_neg h]

theorem readLongLen_sound (nn : Nat) (t : List Nat) (len : Nat) (u : List Nat)
    (hbytes : ∀ x ∈ t, x < 256) (h : readLongLen nn t = some (len, u)) :
    natToBE len = t.take nn ∧ (t.take nn).length = nn ∧ u = t.drop nn ∧ 55 < len := by
  simp only [readLongLen] at h
  by_cases hle : nn ≤ t.length
  · rw [if_pos hle] at h
    by_cases hhead : (t.take nn).headI = 0
    · rw [if_pos hhead] at h
      exact absurd h (by simp)
    · rw [if_neg hhead] at h
      by_cases hlen : beNat (t.take nn) ≤ 55
      · rw [if_pos hlen] at h
        exact absurd h (by simp)
      · rw [if_neg hlen] at h
        simp only [Option.some.injEq, Prod.mk.injEq] at h
        obtain ⟨h1, h2⟩ := h
        subst h1; subst h2
        refine ⟨?_, ?_, rfl, by omega⟩
        · exact natToBE_beNat _ (fun x hx => hbytes x (List.take_subset _ _ hx)) (Or.inr hhead)
        · rw [List.length_take]; omega
  · rw [if_neg hle] at h
    exact absurd h (by simp)

/-- Canonicity of the decoder: a successful decode of a byte string into a
sequence of RLP items re-encodes to exactly the input bytes. -/
theorem rlpDecodeItems_sound (fuel : Nat) : ∀ bs items, (∀ x ∈ bs, x < 256) →
    rlpDecodeItems fuel bs = some items → rlpEncodeItems items = bs := by
  induction fuel with
  | zero =>
    intro bs items _ h
    rw [show rlpDecodeItems 0 bs = none from rfl] at h
    exact Option.noConfusion h
  | succ fuel ih =>
    intro bs items hbytes h
    match bs with
    | [] =>
      rw [show rlpDecodeItems (fuel + 1) [] = some [] from rfl] at h
      simp only [Option.some.injEq] at h
      subst h
      rfl
    | b :: t =>
      have ht : ∀ x ∈ t, x < 256 := fun x hx => hbytes x (List.mem_cons_of_mem _ hx)
      simp only [rlpDecodeItems] at h
      by_cases h1 : b < 128
      · rw [if_pos h1] at h
        rw [Option.map_eq_some'] at h
        obtain ⟨tl, hdec, rfl⟩ := h
        have htl := ih t tl ht hdec
        simp only [rlpEncodeItems]
        rw [show rlpEncode (.bytes [b]) = rlpEncodeBytes [b] from rfl]
        rw [rlpEncodeBytes_single b h1, htl]
        rfl
      · rw [if_neg h1] at h
        by_cases h2 : b ≤ 183
        · rw [if_pos h2] at h
          by_cases hc : b - 128 ≤ t.length ∧ ¬(b - 128 = 1 ∧ (t.take (b - 128)).headI < 128)
          · rw [if_pos hc] at h
            rw [Option.map_eq_some'] at h
            obtain ⟨tl, hdec, rfl⟩ := h
            have htl := ih (t.drop (b - 128)) tl
              (fun x hx => ht x (List.drop_subset _ _ hx)) hdec
            have hlen : (t.take (b - 128)).length = b - 128 := by
              rw [List.length_take]; omega
            simp only [rlpEncodeItems]
            rw [show rlpEncode (.bytes (t.take (b - 128))) = rlpEncodeBytes (t.take (b - 128))
              from rfl]
            rw [rlpEncodeBytes_short (t.take (b - 128)) (by omega)
              (by rw [hlen]; exact hc.2), hlen, htl]
            have hb' : 128 + (b - 128) = b := by omega
            rw [hb']
            simp [List.take_append_drop]
          · rw [if_neg hc] at h
            exact absurd h (by simp)
        · rw [if_neg h2] at h
          by_cases h3 : b ≤ 191
          · rw [if_pos h3] at h
            rcases hr : readLongLen (b - 183) t with _ | ⟨len, u⟩
            · rw [hr] at h
              exact absurd h (by simp)
            · rw [hr] at h
              simp only [Option.some_bind] at h
              obtain ⟨hnat, hnn, hu, h55⟩ := readLongLen_sound (b - 183) t len u ht hr
              by_cases hul : len ≤ u.length
              · rw [if_pos hul] at h
                rw [Option.map_eq_some'] at h
                obtain ⟨tl, hdec, rfl⟩ := h
                have husub : ∀ x ∈ u, x < 256 := by
                  subst hu; exact fun x hx => ht x (List.drop_subset _ _ hx)
                have htl := ih (u.drop len) tl
                  (fun x hx => husub x (List.drop_subset _ _ hx)) hdec
                have hil : (u.take len).length = len := by rw [List.length_take]; omega
                simp only [rlpEncodeItems]
                rw [show rlpEncode (.bytes (u.take len)) = rlpEncodeBytes (u.take len)
                  from rfl]
                rw [rlpEncodeBytes_long (u.take len) (by omega), hil, hnat, htl]
                have hb' : 183 + (t.take (b - 183)).length = b := by rw [hnn]; omega
                rw [hb']
                subst hu
                simp [List.append_assoc, List.take_append_drop]
              · rw [if_neg hul] at h
                exact Option.noConfusion h
          · rw [if_neg h3] at h
            by_cases h4 : b ≤ 247
            · rw [if_pos h4] at h
              by_cases hn : b - 192 ≤ t.length
              · rw [if_pos hn] at h
                rcases hin : rlpDecodeItems fuel (t.take (b - 192)) with _ | inner
                · rw [hin] at h
                  exact absurd h (by simp)
                · rw [hin] at h
                  simp only [Option.some_bind] at h
                  rw [Option.map_eq_some'] at h
                  obtain ⟨tl, hdec, rfl⟩ := h
                  have hinner := ih (t.take (b - 192)) inner
                    (fun x hx => ht x (List.take_subset _ _ hx)) hin
                  have htl := ih (t.drop (b - 192)) tl
                    (fun x hx => ht x (List.drop_subset _ _ hx)) hdec
                  have hplen : (rlpEncodeItems inner).length = b - 192 := by
                    rw [hinner, List.length_take]; omega
                  simp only [rlpEncodeItems]
                  rw [rlpEncode_list_short inner (by omega), hplen, hinner, htl]
                  have hb' : 192 + (b - 192) = b := by omega
                  rw [hb']
                  simp [List.take_append_drop]
              · rw [if_neg hn] at h
                exact Option.noConfusion h
            · rw [if_neg h4] at h
              rcases hr : readLongLen (b - 247) t with _ | ⟨len, u⟩
              · rw [hr] at h
                exact absurd h (by simp)
              · rw [hr] at h
                simp only [Option.some_bind] at h
                obtain ⟨hnat, hnn, hu, h55⟩ := readLongLen_sound (b - 247) t len u ht hr
                by_cases hul : len ≤ u.length
                · rw [if_pos hul] at h
                  have husub : ∀ x ∈ u, x < 256 := by
                    subst hu; exact fun x hx => ht x (List.drop_subset _ _ hx)
                  rcases hin : rlpDecodeItems fuel (u.take len) with _ | inner
                  · rw [hin] at h
                    exact absurd h (by simp)
                  · rw [hin] at h
                    simp only [Option.some_bind] at h
                    rw [Option.map_eq_some'] at h
                    obtain ⟨tl, hdec, rfl⟩ := h
                    have hinner := ih (u.take len) inner
                      (fun x hx => husub x (List.take_subset _ _ hx)) hin
                    have htl := ih (u.drop len) tl
                      (fun x hx => husub x (List.drop_subset _ _ hx)) hdec
                    have hplen : (rlpEncodeItems inner).length = len := by
                      rw [hinner, List.length_take]; omega
                    simp only [rlpEncodeItems]
                    rw [rlpEncode_list_long inner (by omega), hplen, hinner, hnat, htl]
                    have hb' : 247 + (t.take (b - 247)).length = b := by rw [hnn]; omega
                    rw [hb']
                    subst hu
                    simp [List.append_assoc, List.take_append_drop]
                · rw [if_neg hul] at h
                  exact Option.noConfusion h

/-- Canonicity for `fromRlp`: a successful decode re-encodes to the input. -/
theorem fromRlp_sound (bs : List Nat) (v : RlpValue)
    (hbytes : ∀ x ∈ bs, x < 256) (h : fromRlp bs = some v) : rlpEncode v = bs := by
  rw [fromRlp] at h
  rcases hr : rlpDecodeItems (bs.length + 1) bs with _ | items
  · rw [hr] at h
    exact Option.noConfusion h
  · rw [hr] at h
    simp only [Option.some_bind] at h
    by_cases hlen : items.length = 1
    · rw [if_pos hlen] at h
      simp only [Option.some.injEq] at h
      obtain ⟨a, ha⟩ := List.length_eq_one.mp hlen
      subst ha
      have := rlpDecodeItems_sound (bs.length + 1) bs [a] hbytes hr
      simp only [rlpEncodeItems, List.append_nil] at this
      rw [← h]
      simpa [List.headI] using this
    · rw [if_neg hlen] at h
      exact Option.noConfusion h

/-! ## Membership of payload bytes in encodings (byte-range transport) -/
theorem subset_rlpEncodeBytes (b : List Nat) : b ⊆ rlpEncodeBytes b := by
  rw [rlpEncodeBytes]
  split_ifs
  · exact List.Subset.refl _
  · exact fun x hx => List.mem_cons_of_mem _ hx
  · exact fun x hx => List.mem_cons_of_mem _ (List.mem_append_right _ hx)

theorem rlpEncode_subset_items (v : RlpValue) : ∀ items : List RlpValue, v ∈ items →
    rlpEncode v ⊆ rlpEncodeItems items := by
  intro items
  induction items with
  | nil => intro hv; cases hv
  | cons w ws ih =>
    intro hv x hx
    rcases List.mem_cons.mp hv with rfl | hv'
    · exact (show rlpEncodeItems (v :: ws) = rlpEncode v ++ rlpEncodeItems ws from rfl) ▸
        List.mem_append_left _ hx
    · exact (show rlpEncodeItems (w :: ws) = rlpEncode w ++ rlpEncodeItems ws from rfl) ▸
        List.mem_append_right _ (ih hv' hx)

theorem items_subset_rlpEncode_list (items : List RlpValue) :
    rlpEncodeItems items ⊆ rlpEncode (.list items) := by
  rw [rlpEncode]
  split_ifs
  · exact fun x hx => List.mem_cons_of_mem _ hx
  · exact fun x hx => List.mem_cons_of_mem _ (List.mem_append_right _ hx)

theorem asList_list (l : List RlpValue) : RlpValue.asList (.list l) = some l := rfl

theorem asList_bytes (b : List Nat) : RlpValue.asList (.bytes b) = none := rfl

theorem asList_eq_some (v : RlpValue) (l : List RlpValue) :
    v.asList = some l ↔ v = .list l := by
  cases v with
  | bytes b => simp [asList_bytes]
  | list l' =>
    rw [asList_list]
    constructor
    · intro h
      injection h with h
      rw [h]
    · intro h
      injection h with h
      rw [h]

theorem isBytes_eq_true (v : RlpValue) : v.isBytes = true ↔ ∃ b, v = .bytes b := by
  cases v with
  | bytes b => simp [RlpValue.isBytes]
  | list l => simp [RlpValue.isBytes]

theorem asBytes_some_bytes (b : List Nat) : asBytes (some (.bytes b)) = some b := rfl

theorem asBytes_some_list (l : List RlpValue) : asBytes (some (.list l)) = none := rfl

theorem asBytes_none : asBytes none = none := rfl

/-! ## Inversion helpers for the pipeline -/
theorem headI_cons_tail (l : List Nat) (h : l ≠ []) : l.headI :: l.tail = l := by
  cases l with
  | nil => exact absurd rfl h
  | cons a t => rfl

theorem exists_six {α : Type} (es : List α) (h : es.length = 6) :
    ∃ a b c d e f, es = [a, b, c, d, e, f] := by
  rcases es with _ | ⟨a, _ | ⟨b, _ | ⟨c, _ | ⟨d, _ | ⟨e, _ | ⟨f, rest⟩⟩⟩⟩⟩⟩ <;>
    simp_all

/-- Inversion for the Direct branch: a successful derivation comes from a
successful envelope decode, with the fields and the mint amount as in the
source. -/
theorem directDerive_ok_inv (l2ChainId : Nat) (tx : SourceTx) (rate : Nat) (f : DerivedTx)
    (h : directDerive l2ChainId tx rate = .ok f) :
    ∃ d, decodeFacetEncodedTransaction l2ChainId tx.input = some d ∧
      f = { fromAddress := tx.sender
            «to» := d.to
            value := d.value
            gasLimit := d.gasLimit
            data := d.data
            fctMintAmount :=
              calculateInputGasCost (directEncodedTransaction l2ChainId d) * rate } := by
  rw [directDerive] at h
  rcases hd : decodeFacetEncodedTransaction l2ChainId tx.input with _ | d
  · rw [hd] at h
    simp only [Option.elim_none] at h
    exact DeriveResult.noConfusion h
  · rw [hd] at h
    simp only [Option.elim_some] at h
    refine ⟨d, rfl, ?_⟩
    injection h with h
    exact h.symm

/-- Inversion for the ContractEvent branch: a successful derivation selects
the first sentinel log, RLP-decodes its tag-stripped data to a list of at
least six items, reads elements 1-4 as byte strings, and produces the
fields and mint amount of the source. -/
theorem eventDerive_ok_inv (receipt : Receipt) (rate : Nat) (f : DerivedTx)
    (h : eventDerive receipt rate = .ok f) :
    ∃ log decoded toB valueB gasB dataB,
      findFacetEvent receipt.logs = some log ∧
      fromRlp log.data.tail = some (.list decoded) ∧
      ¬ decoded.length < 6 ∧
      getBytesElem decoded 1 = some toB ∧
      getBytesElem decoded 2 = some valueB ∧
      getBytesElem decoded 3 = some gasB ∧
      getBytesElem decoded 4 = some dataB ∧
      f = { fromAddress := applyL1ToL2Alias log.address
            «to» := if 2 + 2 * toB.length ≤ 2 then none else some toB
            value := if valueB = [] then 0 else beNat valueB
            gasLimit := if gasB = [] then 0 else beNat gasB
            data := dataB
            fctMintAmount := log.data.length * 8 * rate } := by
  rw [eventDerive] at h
  rcases hfind : findFacetEvent receipt.logs with _ | log
  · rw [hfind] at h
    simp only [Option.elim_none] at h
    exact DeriveResult.noConfusion h
  · rw [hfind] at h
    simp only [Option.elim_some] at h
    rcases hrlp : fromRlp log.data.tail with _ | v
    · rw [hrlp] at h
      simp only [Option.elim_none] at h
      exact DeriveResult.noConfusion h
    · rw [hrlp] at h
      simp only [Option.elim_some] at h
      rcases v with b | decoded
      · rw [asList_bytes] at h
        simp only [Option.elim_none] at h
        exact DeriveResult.noConfusion h
      · rw [asList_list] at h
        simp only [Option.elim_some] at h
        by_cases hlen : decoded.length < 6
        · rw [if_pos hlen] at h
          exact DeriveResult.noConfusion h
        · rw [if_neg hlen] at h
          rcases h1 : getBytesElem decoded 1 with _ | toB
          · rw [h1] at h
            simp only [Option.none_bind, Option.elim_none] at h
            exact DeriveResult.noConfusion h
          · rw [h1] at h
            simp only [Option.some_bind] at h
            rcases h2 : getBytesElem decoded 2 with _ | valueB
            · rw [h2] at h
              simp only [Option.none_bind, Option.elim_none] at h
              exact DeriveResult.noConfusion h
            · rw [h2] at h
              simp only [Option.some_bind] at h
              rcases h3 : getBytesElem decoded 3 with _ | gasB
              · rw [h3] at h
                simp only [Option.none_bind, Option.elim_none] at h
                exact DeriveResult.noConfusion h
              · rw [h3] at h
                simp only [Option.some_bind] at h
                rcases h4 : getBytesElem decoded 4 with _ | dataB
                · rw [h4] at h
                  simp only [Option.map_none', Option.elim_none] at h
                  exact DeriveResult.noConfusion h
                · rw [h4] at h
                  simp only [Option.map_some', Option.elim_some] at h
                  injection h with h
                  exact ⟨log, decoded, toB, valueB, gasB, dataB, rfl, hrlp, hlen,
                    h1, h2, h3, h4, h.symm⟩

/-! ## Claims -/
/-- C5: For all valid Direct-path input bytes (bytes accepted by the
envelope decoder), decoding them into `(to, value, gasLimit, data,
mineBoost)` and then re-encoding those fields as the RLP list prefixed with
the fixed tag byte 70 reproduces bytes identical to the original
transaction input. -/
theorem claim_C5_direct_roundtrip (l2ChainId : Nat) (input : List Nat) (d : DecodedFacetTx)
    (hbytes : ∀ x ∈ input, x < 256)
    (h : decodeFacetEncodedTransaction l2ChainId input = some d) :
    directEncodedTransaction l2ChainId d = input := by
  rw [decodeFacetEncodedTransaction] at h
  by_cases hin : input ≠ [] ∧ input.headI = 70
  · rw [if_pos hin] at h
    rcases hrlp : fromRlp input.tail with _ | v
    · rw [hrlp] at h
      simp only [Option.none_bind] at h
      exact Option.noConfusion h
    · rw [hrlp] at h
      simp only [Option.some_bind] at h
      rcases v with b | es
      · rw [asList_bytes] at h
        simp only [Option.none_bind] at h
        exact Option.noConfusion h
      · rw [asList_list] at h
        simp only [Option.some_bind] at h
        by_cases hcond : es.length = 6 ∧ es.all RlpValue.isBytes ∧
            (getBytesElem es 0).getD [] = natToBE l2ChainId ∧
            ((getBytesElem es 1).getD [] = [] ∨ ((getBytesElem es 1).getD []).length = 20) ∧
            canonNum ((getBytesElem es 2).getD []) ∧
            canonNum ((getBytesElem es 3).getD []) ∧
            canonNum ((getBytesElem es 5).getD [])
        · rw [if_pos hcond] at h
          obtain ⟨h6, hall, hcid, hto, hv, hg, hm⟩ := hcond
          obtain ⟨e0, e1, e2, e3, e4, e5, rfl⟩ := exists_six es h6
          simp only [List.all_cons, List.all_nil, Bool.and_eq_true, and_true] at hall
          obtain ⟨hb0, hb1, hb2, hb3, hb4, hb5⟩ := hall
          obtain ⟨b0, rfl⟩ := (isBytes_eq_true e0).mp hb0
          obtain ⟨b1, rfl⟩ := (isBytes_eq_true e1).mp hb1
          obtain ⟨b2, rfl⟩ := (isBytes_eq_true e2).mp hb2
          obtain ⟨b3, rfl⟩ := (isBytes_eq_true e3).mp hb3
          obtain ⟨b4, rfl⟩ := (isBytes_eq_true e4).mp hb4
          obtain ⟨b5, rfl⟩ := (isBytes_eq_true e5).mp hb5
          have hcid' : b0 = natToBE l2ChainId := hcid
          have hv' : canonNum b2 := hv
          have hg' : canonNum b3 := hg
          have hm' : canonNum b5 := hm
          have hd : d =
              { «to» := (if b1 = [] then none else some b1)
                value := beNat b2
                gasLimit := beNat b3
                data := b4
                mineBoost := beNat b5 } := by
            injection h with h
            exact h.symm
          subst hd
          have henc : rlpEncode (.list [RlpValue.bytes b0, .bytes b1, .bytes b2, .bytes b3,
              .bytes b4, .bytes b5]) = input.tail :=
            fromRlp_sound _ _ (fun x hx => hbytes x (List.tail_subset input hx)) hrlp
          have hchain : ∀ bi : List Nat,
              RlpValue.bytes bi ∈ ([RlpValue.bytes b0, .bytes b1, .bytes b2, .bytes b3,
                .bytes b4, .bytes b5] : List RlpValue) → ∀ x ∈ bi, x < 256 := by
            intro bi hmem x hx
            apply hbytes
            apply List.tail_subset input
            rw [← henc]
            exact items_subset_rlpEncode_list _
              (rlpEncode_subset_items (.bytes bi) _ hmem (subset_rlpEncodeBytes bi hx))
          have he2 : natToBE (beNat b2) = b2 :=
            natToBE_beNat b2 (hchain b2 (by simp)) hv'
          have he3 : natToBE (beNat b3) = b3 :=
            natToBE_beNat b3 (hchain b3 (by simp)) hg'
          have he5 : natToBE (beNat b5) = b5 :=
            natToBE_beNat b5 (hchain b5 (by simp)) hm'
          have hgetd : ((if b1 = [] then none else some b1) : Option (List Nat)).getD [] = b1 := by
            by_cases hb : b1 = []
            · simp [hb]
            · simp [hb]
          have hlist : directTransactionData l2ChainId
              { «to» := (if b1 = [] then none else some b1)
                value := beNat b2
                gasLimit := beNat b3
                data := b4
                mineBoost := beNat b5 } =
              [b0, b1, b2, b3, b4, b5] := by
            simp only [directTransactionData, hgetd, he2, he3, he5, ← hcid']
          rw [directEncodedTransaction, hlist, ← rlpEncodeBytesList_eq]
          simp only [List.map]
          rw [henc]
          rw [← hin.2]
          exact headI_cons_tail input hin.1
        · rw [if_neg hcond] at h
          exact Option.noConfusion h
  · rw [if_neg hin] at h
    exact Option.noConfusion h

/-- C5 witness: a concrete valid Direct-path input round-trips. -/
theorem claim_C5_direct_roundtrip_witness :
    decodeFacetEncodedTransaction 1 [70, 198, 1, 128, 128, 128, 128, 128] =
      some { «to» := none, value := 0, gasLimit := 0, data := [], mineBoost := 0 } ∧
    directEncodedTransaction 1
      { «to» := none, value := 0, gasLimit := 0, data := [], mineBoost := 0 } =
      [70, 198, 1, 128, 128, 128, 128, 128] :=
  ⟨by decide, claim_C5_direct_roundtrip 1 [70, 198, 1, 128, 128, 128, 128, 128]
    { «to» := none, value := 0, gasLimit := 0, data := [], mineBoost := 0 }
    (by decide) (by decide)⟩

/-- C1 counterexample: an Event-path request whose matched log's payload,
after stripping the tag byte, RLP-decodes to a byte string (not a list).
The claim says the response status is 400; the worker instead throws
(`throw new Error("Invalid RLP data in Facet event")`), which the outer
`catch` surfaces as status 500. -/
theorem claim_C1_counterexample :
    derive 0xface7 { toAddr := none, sender := 7, input := [] }
        { logs := [{ address := 1000, topics := [FACET_EVENT_SIGNATURE], data := [70, 1] }] }
        5 =
      .thrown "Invalid RLP data in Facet event" ∧
    responseStatusOf
      (derive 0xface7 { toAddr := none, sender := 7, input := [] }
        { logs := [{ address := 1000, topics := [FACET_EVENT_SIGNATURE], data := [70, 1] }] }
        5) = 500 := by
  exact ⟨by decide, by decide⟩

/-- C1 (amended): for every Event-path request whose matched Facet log
carries a payload that, after stripping the 1-byte tag, RLP-decodes to
something that is not a list or to a list with fewer than 6 elements, the
derivation fails with the thrown error "Invalid RLP data in Facet event"
and the HTTP response has status 500 (the handler's generic catch), not
400. -/
theorem claim_C1_amended (l2ChainId : Nat) (tx : SourceTx) (receipt : Receipt) (rate : Nat)
    (log : Log) (v : RlpValue)
    (hdir : isDirect tx = false)
    (hfind : findFacetEvent receipt.logs = some log)
    (hrlp : fromRlp log.data.tail = some v)
    (hbad : v.asList = none ∨ ∃ items, v.asList = some items ∧ items.length < 6) :
    derive l2ChainId tx receipt rate = .thrown "Invalid RLP data in Facet event" ∧
    responseStatusOf (derive l2ChainId tx receipt rate) = 500 ∧
    responseStatusOf (derive l2ChainId tx receipt rate) ≠ 400 := by
  have hder : derive l2ChainId tx receipt rate = .thrown "Invalid RLP data in Facet event" := by
    rw [derive, hdir]
    simp only [Bool.false_eq_true, if_false]
    rw [eventDerive, hfind]
    simp only [Option.elim_some]
    rw [hrlp]
    simp only [Option.elim_some]
    rcases hbad with hnone | ⟨items, hsome, hlt⟩
    · rw [hnone]
      simp only [Option.elim_none]
    · rw [hsome]
      simp only [Option.elim_some]
      rw [if_pos hlt]
  refine ⟨hder, by rw [hder]; rfl, by rw [hder]; decide⟩

/-- C1 witness: a log whose payload decodes to a two-element list. -/
theorem claim_C1_amended_witness :
    derive 1 ⟨none, 7, []⟩ ⟨[⟨42, [FACET_EVENT_SIGNATURE], [70, 194, 1, 2]⟩]⟩ 3 =
      .thrown "Invalid RLP data in Facet event" ∧
    responseStatusOf (derive 1 ⟨none, 7, []⟩
      ⟨[⟨42, [FACET_EVENT_SIGNATURE], [70, 194, 1, 2]⟩]⟩ 3) = 500 ∧
    responseStatusOf (derive 1 ⟨none, 7, []⟩
      ⟨[⟨42, [FACET_EVENT_SIGNATURE], [70, 194, 1, 2]⟩]⟩ 3) ≠ 400 :=
  claim_C1_amended 1 ⟨none, 7, []⟩ ⟨[⟨42, [FACET_EVENT_SIGNATURE], [70, 194, 1, 2]⟩]⟩ 3
    ⟨42, [FACET_EVENT_SIGNATURE], [70, 194, 1, 2]⟩
    (.list [.bytes [1], .bytes [2]])
    (by decide) (by decide) rfl
    (Or.inr ⟨[.bytes [1], .bytes [2]], rfl, by decide⟩)

/-- C2: for every successful derivation, `fctMintAmount = inputCost ×
mintRate`, where on the Direct path `inputCost` is the external
input-gas-cost primitive applied to the tag byte 70 followed by the RLP
encoding of `[l2ChainId, to-or-empty, value-or-empty, gasLimit-or-empty,
data, mineBoost-or-empty]`, and on the Event path `inputCost` is 8 times
the byte length of the full log data, tag byte included.  The two formulas
are the two distinct branches of `derive`, never unified. -/
theorem claim_C2_mint_amount (l2ChainId : Nat) (tx : SourceTx) (receipt : Receipt)
    (rate : Nat) (f : DerivedTx)
    (hok : derive l2ChainId tx receipt rate = .ok f) :
    (isDirect tx = true →
      ∃ d, decodeFacetEncodedTransaction l2ChainId tx.input = some d ∧
        f.fctMintAmount =
          calculateInputGasCost (70 :: rlpEncodeBytesList
            [natToBE l2ChainId, d.to.getD [], natToBE d.value, natToBE d.gasLimit,
              d.data, natToBE d.mineBoost]) * rate) ∧
    (isDirect tx = false →
      ∃ log, findFacetEvent receipt.logs = some log ∧
        f.fctMintAmount = (log.data.length * 8) * rate) := by
  constructor
  · intro hdir
    rw [derive, hdir] at hok
    simp only [if_true] at hok
    obtain ⟨d, hd, hf⟩ := directDerive_ok_inv l2ChainId tx rate f hok
    refine ⟨d, hd, ?_⟩
    rw [hf]
    rfl
  · intro hdir
    rw [derive, hdir] at hok
    simp only [Bool.false_eq_true, if_false] at hok
    obtain ⟨log, decoded, toB, valueB, gasB, dataB, hfind, _, _, _, _, _, _, hf⟩ :=
      eventDerive_ok_inv receipt rate f hok
    refine ⟨log, hfind, ?_⟩
    rw [hf]

/-- C2 witness: one concrete run of each branch. -/
theorem claim_C2_mint_amount_witness :
    (∃ d, decodeFacetEncodedTransaction 1 [70, 198, 1, 128, 128, 128, 128, 128] = some d ∧
      (DerivedTx.fctMintAmount
        { fromAddress := 7, «to» := none, value := 0, gasLimit := 0, data := [],
          fctMintAmount := 128 * 3 }) =
        calculateInputGasCost (70 :: rlpEncodeBytesList
          [natToBE 1, d.to.getD [], natToBE d.value, natToBE d.gasLimit,
            d.data, natToBE d.mineBoost]) * 3) ∧
    (∃ log, findFacetEvent
        [⟨42, [FACET_EVENT_SIGNATURE], [70, 198, 128, 5, 128, 128, 128, 128]⟩] = some log ∧
      (DerivedTx.fctMintAmount
        { fromAddress := applyL1ToL2Alias 42, «to» := some [5],
          value := 0, gasLimit := 0, data := [], fctMintAmount := 8 * 8 * 3 }) =
        (log.data.length * 8) * 3) := by
  constructor
  · exact (claim_C2_mint_amount 1 ⟨some FACET_INBOX_ADDRESS, 7, [70, 198, 1, 128, 128, 128, 128, 128]⟩
      ⟨[]⟩ 3 _ (by decide)).1 (by decide)
  · exact (claim_C2_mint_amount 1 ⟨none, 7, []⟩
      ⟨[⟨42, [FACET_EVENT_SIGNATURE], [70, 198, 128, 5, 128, 128, 128, 128]⟩]⟩ 3 _
      (by decide)).2 (by decide)

/-- C3 counterexample: an Event payload whose RLP element [1] is the single
byte `0x05` (byte length 1).  The claim says byte length ≤ 1 yields an
absent `to`; the worker tests `toAddressBytes.length <= 2` on the *hex
string* (length 4 here), so the derived `to` is present (`some [5]`). -/
theorem claim_C3_counterexample :
    fromRlp [198, 128, 5, 128, 128, 128, 128] =
      some (.list [.bytes [], .bytes [5], .bytes [], .bytes [], .bytes [], .bytes []]) ∧
    eventDerive ⟨[⟨1000, [FACET_EVENT_SIGNATURE], [70, 198, 128, 5, 128, 128, 128, 128]⟩]⟩ 1 =
      .ok { fromAddress := applyL1ToL2Alias 1000, «to» := some [5], value := 0,
            gasLimit := 0, data := [], fctMintAmount := 64 } :=
  ⟨rfl, by decide⟩

/-- C3 (amended): for every Event-path payload whose decoded RLP list
element [1] is a byte string, the derived `to` is absent exactly when that
element is empty (byte length 0); any element of byte length ≥ 1 — including
length 1 — becomes a present `to` equal to that element. -/
theorem claim_C3_amended (receipt : Receipt) (rate : Nat) (f : DerivedTx) (log : Log)
    (decoded : List RlpValue) (b : List Nat)
    (hok : eventDerive receipt rate = .ok f)
    (hfind : findFacetEvent receipt.logs = some log)
    (hrlp : fromRlp log.data.tail = some (.list decoded))
    (hb : getBytesElem decoded 1 = some b) :
    (f.to = none ↔ b = []) ∧ (b ≠ [] → f.to = some b) := by
  obtain ⟨log', decoded', toB, valueB, gasB, dataB, hfind', hrlp', hlen', h1, h2, h3, h4, hf⟩ :=
    eventDerive_ok_inv receipt rate f hok
  rw [hfind] at hfind'
  injection hfind' with hlog
  subst hlog
  rw [hrlp] at hrlp'
  injection hrlp' with hv
  injection hv with hdec
  subst hdec
  rw [hb] at h1
  injection h1 with htoB
  subst htoB
  rw [hf]
  constructor
  · constructor
    · intro hnone
      by_cases hb0 : b = []
      · exact hb0
      · exfalso
        have : ¬ 2 + 2 * b.length ≤ 2 := by
          have : b.length ≠ 0 := fun hc => hb0 (List.length_eq_zero.mp hc)
          omega
        rw [if_neg this] at hnone
        exact Option.noConfusion hnone
    · intro hb0
      subst hb0
      simp
  · intro hb0
    have : ¬ 2 + 2 * b.length ≤ 2 := by
      have : b.length ≠ 0 := fun hc => hb0 (List.length_eq_zero.mp hc)
      omega
    simp only [if_neg this]

/-- C3 witness: the amended rule at the single-byte element. -/
theorem claim_C3_amended_witness :
    (DerivedTx.to ⟨applyL1ToL2Alias 1000, some [5], 0, 0, [], 64⟩ = none ↔
      ([5] : List Nat) = []) ∧
    (([5] : List Nat) ≠ [] →
      DerivedTx.to ⟨applyL1ToL2Alias 1000, some [5], 0, 0, [], 64⟩ = some [5]) :=
  claim_C3_amended ⟨[⟨1000, [FACET_EVENT_SIGNATURE], [70, 198, 128, 5, 128, 128, 128, 128]⟩]⟩ 1
    ⟨applyL1ToL2Alias 1000, some [5], 0, 0, [], 64⟩
    ⟨1000, [FACET_EVENT_SIGNATURE], [70, 198, 128, 5, 128, 128, 128, 128]⟩
    [.bytes [], .bytes [5], .bytes [], .bytes [], .bytes [], .bytes []] [5]
    (by decide) (by decide) rfl rfl

/-- C4: the mint-rate lookup block is `targetBlock = N_tip − floor((T_tip −
T_l1) / 12)`, with 12 the fixed `L2_BLOCK_TIME` constant; the first
conjunct characterizes the floor, the second is the `T_l1 = T_tip` case
giving `targetBlock = N_tip` exactly. -/
theorem claim_C4_target_block (latestL2BlockNumber latestL2Timestamp txBlockTimestamp k : Int) :
    (L2_BLOCK_TIME * k ≤ latestL2Timestamp - txBlockTimestamp →
      latestL2Timestamp - txBlockTimestamp < L2_BLOCK_TIME * (k + 1) →
      targetL2BlockNumber latestL2BlockNumber latestL2Timestamp txBlockTimestamp =
        latestL2BlockNumber - k) ∧
    (txBlockTimestamp = latestL2Timestamp →
      targetL2BlockNumber latestL2BlockNumber latestL2Timestamp txBlockTimestamp =
        latestL2BlockNumber) := by
  constructor
  · intro h1 h2
    rw [targetL2BlockNumber, L2_BLOCK_TIME] at *
    rw [Int.fdiv_eq_ediv _ (by norm_num)]
    omega
  · intro h
    subst h
    rw [targetL2BlockNumber, L2_BLOCK_TIME]
    simp

/-- C4 witness: a 125-second gap goes back 10 blocks; a zero gap stays at
the tip. -/
theorem claim_C4_target_block_witness :
    targetL2BlockNumber 100 1000 875 = 90 ∧ targetL2BlockNumber 100 1000 1000 = 100 :=
  ⟨(claim_C4_target_block 100 1000 875 10).1 (by decide) (by decide),
    (claim_C4_target_block 100 1000 1000 0).2 rfl⟩

/-- C6: the pipeline takes the Direct path if and only if the transaction's
recipient equals the fixed inbox address under case-insensitive comparison;
every other recipient (and an absent one) routes to the Event path. -/
theorem claim_C6_classifier (tx : SourceTx) :
    (isDirect tx = true ↔
      ∃ a, tx.toAddr = some a ∧ lowerStr a = lowerStr FACET_INBOX_ADDRESS) ∧
    ∀ (l2ChainId : Nat) (receipt : Receipt) (rate : Nat),
      derive l2ChainId tx receipt rate =
        if isDirect tx then directDerive l2ChainId tx rate else eventDerive receipt rate := by
  constructor
  · rw [isDirect, beq_iff_eq, Option.map_eq_some']
  · intro l2ChainId receipt rate
    rfl

/-- C7: the `from` field passed to hash derivation is the L1 transaction
sender unmodified on the Direct path, and the L1-to-L2 alias of the matched
log's emitting address on the Event path; no other aliasing occurs. -/
theorem claim_C7_from_address :
    (∀ (l2ChainId : Nat) (tx : SourceTx) (rate : Nat) (f : DerivedTx),
      directDerive l2ChainId tx rate = .ok f → f.fromAddress = tx.sender) ∧
    (∀ (receipt : Receipt) (rate : Nat) (f : DerivedTx) (log : Log),
      findFacetEvent receipt.logs = some log →
      eventDerive receipt rate = .ok f → f.fromAddress = applyL1ToL2Alias log.address) := by
  constructor
  · intro l2ChainId tx rate f hok
    obtain ⟨d, _, hf⟩ := directDerive_ok_inv l2ChainId tx rate f hok
    rw [hf]
  · intro receipt rate f log hfind hok
    obtain ⟨log', decoded, toB, valueB, gasB, dataB, hfind', _, _, _, _, _, _, hf⟩ :=
      eventDerive_ok_inv receipt rate f hok
    rw [hfind] at hfind'
    injection hfind' with hlog
    subst hlog
    rw [hf]

/-- C7 witness: one concrete run of each branch. -/
theorem claim_C7_from_address_witness :
    DerivedTx.fromAddress ⟨7, none, 0, 0, [], 384⟩ = 7 ∧
    DerivedTx.fromAddress ⟨applyL1ToL2Alias 1000, some [5], 0, 0, [], 64⟩ =
      applyL1ToL2Alias 1000 :=
  ⟨claim_C7_from_address.1 1 ⟨some FACET_INBOX_ADDRESS, 7, [70, 198, 1, 128, 128, 128, 128, 128]⟩
      3 ⟨7, none, 0, 0, [], 384⟩ (by decide),
    claim_C7_from_address.2
      ⟨[⟨1000, [FACET_EVENT_SIGNATURE], [70, 198, 128, 5, 128, 128, 128, 128]⟩]⟩ 1
      ⟨applyL1ToL2Alias 1000, some [5], 0, 0, [], 64⟩
      ⟨1000, [FACET_EVENT_SIGNATURE], [70, 198, 128, 5, 128, 128, 128, 128]⟩
      (by decide) (by decide)⟩

/-- C10: a source transaction with an absent recipient (contract-creation
semantics) evaluates the classifier totally (optional chaining makes the
comparison `undefined === string`, i.e. false) and always routes to the
Event path, never the Direct path.  The model is a total function, so
totality holds by construction. -/
theorem claim_C10_absent_recipient (tx : SourceTx) (htx : tx.toAddr = none) :
    isDirect tx = false ∧
    ∀ (l2ChainId : Nat) (receipt : Receipt) (rate : Nat),
      derive l2ChainId tx receipt rate = eventDerive receipt rate := by
  have hdir : isDirect tx = false := by
    rw [isDirect, htx]
    rfl
  refine ⟨hdir, ?_⟩
  intro l2ChainId receipt rate
  rw [derive, hdir]
  simp only [Bool.false_eq_true, if_false]

/-- C10 witness: a concrete contract-creation transaction. -/
theorem claim_C10_absent_recipient_witness :
    isDirect ⟨none, 7, [1, 2, 3]⟩ = false ∧
    ∀ (l2ChainId : Nat) (receipt : Receipt) (rate : Nat),
      derive l2ChainId ⟨none, 7, [1, 2, 3]⟩ receipt rate = eventDerive receipt rate :=
  claim_C10_absent_recipient ⟨none, 7, [1, 2, 3]⟩ rfl

/-- C8: only chainId values 1 and 11155111 pass validation; any other value,
or a missing/falsy `chainId` or `txHash` parameter, yields an HTTP 400
response, and for chainId = 5 the error body contains "Invalid chainId". -/
theorem claim_C8_chain_validation :
    (∀ (txHash : Option String) (chainId : Option Int),
      (validateRequest txHash chainId = none ↔
        (txHash ≠ none ∧ txHash ≠ some "" ∧
          (chainId = some 1 ∨ chainId = some 11155111))) ∧
      (∀ r, validateRequest txHash chainId = some r → r.status = 400)) ∧
    (∀ txHash : Option String, txHash ≠ none → txHash ≠ some "" →
      ∃ r, validateRequest txHash (some 5) = some r ∧
        "Invalid chainId".data <:+: r.body.data) := by
  constructor
  · intro txHash chainId
    constructor
    · rw [validateRequest]
      constructor
      · intro h
        by_cases h1 : txHash = none ∨ txHash = some "" ∨ chainId = none ∨ chainId = some 0
        · rw [if_pos h1] at h
          exact Option.noConfusion h
        · rw [if_neg h1] at h
          by_cases h2 : chainId ≠ some 1 ∧ chainId ≠ some 11155111
          · rw [if_pos h2] at h
            exact Option.noConfusion h
          · push_neg at h1 h2
            exact ⟨h1.1, h1.2.1, by tauto⟩
      · rintro ⟨ht1, ht2, hc⟩
        have h1 : ¬(txHash = none ∨ txHash = some "" ∨ chainId = none ∨ chainId = some 0) := by
          rcases hc with hc | hc <;> subst hc <;> simp [ht1, ht2]
        rw [if_neg h1]
        have h2 : ¬(chainId ≠ some 1 ∧ chainId ≠ some 11155111) := by
          rcases hc with hc | hc <;> subst hc <;> simp
        rw [if_neg h2]
    · intro r hr
      rw [validateRequest] at hr
      by_cases h1 : txHash = none ∨ txHash = some "" ∨ chainId = none ∨ chainId = some 0
      · rw [if_pos h1] at hr
        injection hr with hr
        rw [← hr]
      · rw [if_neg h1] at hr
        by_cases h2 : chainId ≠ some 1 ∧ chainId ≠ some 11155111
        · rw [if_pos h2] at hr
          injection hr with hr
          rw [← hr]
        · rw [if_neg h2] at hr
          exact Option.noConfusion hr
  · intro txHash ht1 ht2
    have h1 : ¬(txHash = none ∨ txHash = some "" ∨ (some 5 : Option Int) = none ∨
        (some 5 : Option Int) = some 0) := by
      simp [ht1, ht2]
    refine ⟨⟨400, jsonError "Invalid chainId"⟩, ?_, ?_⟩
    · rw [validateRequest, if_neg h1, if_pos (by simp : (some 5 : Option Int) ≠ some 1 ∧
        (some 5 : Option Int) ≠ some 11155111)]
    · refine ⟨"\x7b\"error\":\"".data, "\"\x7d".data, ?_⟩
      simp [jsonError, String.data_append]

/-- C8 witness: a well-formed txHash with chainId 5 is rejected with a body
containing "Invalid chainId", and chainId 1 passes. -/
theorem claim_C8_chain_validation_witness :
    (∃ r, validateRequest (some "0xabc") (some 5) = some r ∧
      "Invalid chainId".data <:+: r.body.data) ∧
    validateRequest (some "0xabc") (some 1) = none :=
  ⟨claim_C8_chain_validation.2 (some "0xabc") (by decide) (by decide),
    ((claim_C8_chain_validation.1 (some "0xabc") (some 1)).1).mpr
      ⟨by decide, by decide, Or.inl rfl⟩⟩

/-- C9: on the Event path the two pipeline variants select the same log
(first log with exactly one topic equal to the sentinel) and extract
identical `fromAddress`, `to`, `value`, `gasLimit` and `data` (and fail
identically); the earlier variant is exactly the current one with the
mint-amount computation forgotten.  The remaining differences (mint amount,
post-hash verification) lie outside the extraction. -/
theorem claim_C9_variants_agree (receipt : Receipt) (rate : Nat) :
    V0.findFacetEvent receipt.logs = findFacetEvent receipt.logs ∧
    V0.eventDerive receipt = forgetMint (eventDerive receipt rate) := by
  refine ⟨rfl, ?_⟩
  rw [eventDerive, V0.eventDerive]
  rw [show V0.findFacetEvent receipt.logs = findFacetEvent receipt.logs from rfl]
  rcases hfind : findFacetEvent receipt.logs with _ | log
  · simp only [Option.elim_none, forgetMint]
  · simp only [Option.elim_some]
    rcases hrlp : fromRlp log.data.tail with _ | v
    · simp only [Option.elim_none, forgetMint]
    · simp only [Option.elim_some]
      rcases v with b | decoded
      · rw [asList_bytes]
        simp only [Option.elim_none, forgetMint]
      · rw [asList_list]
        simp only [Option.elim_some]
        by_cases hlen : decoded.length < 6
        · rw [if_pos hlen, if_pos hlen]
          rfl
        · rw [if_neg hlen, if_neg hlen]
          rcases h1 : getBytesElem decoded 1 with _ | toB
          · simp only [Option.none_bind, Option.elim_none, forgetMint]
          · simp only [Option.some_bind]
            rcases h2 : getBytesElem decoded 2 with _ | valueB
            · simp only [Option.none_bind, Option.elim_none, forgetMint]
            · simp only [Option.some_bind]
              rcases h3 : getBytesElem decoded 3 with _ | gasB
              · simp only [Option.none_bind, Option.elim_none, forgetMint]
              · simp only [Option.some_bind]
                rcases h4 : getBytesElem decoded 4 with _ | dataB
                · simp only [Option.map_none', Option.elim_none, forgetMint]
                · simp only [Option.map_some', Option.elim_some, forgetMint]

/-- C6 witness: the inbox address in different casing is Direct; another
address is not. -/
theorem claim_C6_classifier_witness :
    isDirect ⟨some (strBytes "0x00000000000000000000000000000000000face7"), 7, []⟩ = true ∧
    isDirect ⟨some (strBytes "0xAAAA"), 8, []⟩ = false :=
  ⟨(claim_C6_classifier
      ⟨some (strBytes "0x00000000000000000000000000000000000face7"), 7, []⟩).1.mpr
    ⟨strBytes "0x00000000000000000000000000000000000face7", rfl, by decide⟩, by decide⟩
